import Mathlib

/-!
Shallow embedding of the client-side derivation logic of the poly-ui
dashboard: the signal view-model transformer (`src/types/signal.ts`),
the whale-position grouping and live-consensus engine
(`src/components/SignalDetailSheet.tsx`), the whale-plays filter state
(`WhalePlaysPage`), and the token/session operations of the auth layer.

Modelling conventions: JavaScript strings are `List Char`, JS numbers
are `ℚ` (the arithmetic of the claims is exact), nullable values are
`Option`, and network calls are passed in as oracle outcomes. Dates are
kept as their raw strings (no claim inspects them).
-/

namespace PolyUI

/-- JS `s || d` for strings: the empty string is falsy. -/
def jsStrOr (s d : List Char) : List Char := if s = [] then d else s

/-- JS `x || d` for numbers: `0` is falsy. -/
def jsNumOr (x d : ℚ) : ℚ := if x = 0 then d else x

/-- JS truthiness of a nullable string: `null`, `undefined` and `""` are falsy. -/
def jsTruthy : Option (List Char) → Bool
  | none => false
  | some s => !s.isEmpty

/-- First occurrence of `sep` in `s`: `some (pre, post)` where `pre` is the text
before the leftmost occurrence and `post` the text after it. Used with the
non-empty separators of the source only. -/
def splitFirst (sep : List Char) : List Char → Option (List Char × List Char)
  | [] => none
  | c :: cs =>
    if sep.isPrefixOf (c :: cs) then some ([], (c :: cs).drop sep.length)
    else
      match splitFirst sep cs with
      | some (pre, post) => some (c :: pre, post)
      | none => none

/-- JS `s.includes(sep)` for a non-empty search string. -/
def jsIncludes (s sep : List Char) : Bool := (splitFirst sep s).isSome

/-- Fuel-bounded worker for `jsSplit`; the fuel bounds the number of splits. -/
def jsSplitAux (sep : List Char) : Nat → List Char → List (List Char)
  | 0, s => [s]
  | fuel + 1, s =>
    match splitFirst sep s with
    | none => [s]
    | some (pre, post) => pre :: jsSplitAux sep fuel post

/-- JS `s.split(sep)` for a non-empty separator: split at every
non-overlapping occurrence, left to right. -/
def jsSplit (sep s : List Char) : List (List Char) := jsSplitAux sep s.length s

/-- JS `toLowerCase`, modelled characterwise by `Char.toLower`. -/
def toLowerStr (s : List Char) : List Char := s.map Char.toLower

/-- The regex test `/[+-]\d/.test s`: a `+` or `-` immediately followed by a digit. -/
def hasSignedNum : List Char → Bool
  | [] => false
  | [_] => false
  | c :: d :: rest => ((c = '+' || c = '-') && d.isDigit) || hasSignedNum (d :: rest)

/-- Separator `" @ "`. -/
def sepAt : List Char := " @ ".toList

/-- Separator `" vs. "`. -/
def sepVsDot : List Char := " vs. ".toList

/-- Separator `" vs "`. -/
def sepVs : List Char := " vs ".toList

/-- Team parsing of `transformApiSignal` (signal.ts lines 71-92): try the
separators in order; in a matching branch `teams[i] || default` backfills an
empty or missing part; with no separator the whole (nonempty) title becomes
the away team and the home team is empty. -/
def parseTeams (eventTitle : List Char) : List Char × List Char :=
  if jsIncludes eventTitle sepAt then
    let teams := jsSplit sepAt eventTitle
    (jsStrOr (teams.getD 0 []) ("Team A".toList), jsStrOr (teams.getD 1 []) ("Team B".toList))
  else if jsIncludes eventTitle sepVsDot then
    let teams := jsSplit sepVsDot eventTitle
    (jsStrOr (teams.getD 0 []) ("Team A".toList), jsStrOr (teams.getD 1 []) ("Team B".toList))
  else if jsIncludes eventTitle sepVs then
    let teams := jsSplit sepVs eventTitle
    (jsStrOr (teams.getD 0 []) ("Team A".toList), jsStrOr (teams.getD 1 []) ("Team B".toList))
  else
    (jsStrOr eventTitle ("Unknown".toList), [])

/-- UI bet types. -/
inductive BetType where
  | Totals
  | Spread
  | Moneyline
deriving DecidableEq, Repr

/-- Mapping of an explicit (truthy) backend `bet_type` tag (signal.ts lines
97-106); an unrecognised tag leaves the initial `Moneyline`. -/
def mapApiBetType (betTag : List Char) : BetType :=
  let bt := toLowerStr betTag
  if bt = "total".toList ∨ bt = "totals".toList then .Totals
  else if bt = "spread".toList then .Spread
  else if bt = "moneyline".toList then .Moneyline
  else .Moneyline

/-- Bet-type inference when no backend tag is present (signal.ts lines 107-119). -/
def inferBetType (outcome market_title : List Char) : BetType :=
  let marketTitle := toLowerStr (jsStrOr market_title [])
  let oc := toLowerStr (jsStrOr outcome [])
  if ("over".toList.isPrefixOf oc || "under".toList.isPrefixOf oc) = true then .Totals
  else if (jsIncludes marketTitle "total".toList || jsIncludes marketTitle "over/under".toList) = true then .Totals
  else if (jsIncludes marketTitle "spread".toList || hasSignedNum (jsStrOr outcome [])) = true then .Spread
  else .Moneyline

/-- The six checklist gates of a transformed signal. -/
structure Checklist where
  consensusPass : Bool
  traderCountPass : Bool
  priceCeilingPass : Bool
  rrRatioPass : Bool
  noHedging : Bool
  noEliteConflict : Bool
deriving DecidableEq, Repr

/-- Raw API signal (the argument type of `transformApiSignal`). -/
structure ApiSignal where
  id : ℤ
  sport : List Char
  outcome : List Char
  event_title : List Char
  market_title : List Char
  event_date : Option (List Char)
  avg_entry : ℚ
  current_price : Option ℚ
  consensus_pct : ℚ
  traders : ℚ
  total_volume : ℚ
  signal_score : ℚ
  tier : ℚ
  polymarket_url : List Char
  first_seen_at : List Char
  last_seen_at : List Char
  bet_type : Option (List Char)

/-- The `matchup` of a transformed signal; `gameTime` keeps the raw date string. -/
structure Matchup where
  away : List Char
  home : List Char
  gameTime : Option (List Char)

/-- The `pick` of a transformed signal. -/
structure Pick where
  side : List Char
  entryPrice : ℚ
  currentPrice : ℚ

/-- The `signal` sub-object of a transformed signal. -/
structure SignalStats where
  consensusPercent : ℚ
  whaleCount : ℚ
  totalVolume : ℚ
  weightedScore : ℚ
  signalScore : ℚ
  tier : Option ℚ
  rrRatio : ℚ

/-- UI whale position (always empty after transform — no endpoint yet). -/
structure WhalePositionUI where
  name : List Char
  amount : ℚ
  entryPrice : ℚ
  isElite : Bool

/-- The transformed, display-ready signal. -/
structure Signal where
  id : ℤ
  sport : List Char
  betType : BetType
  matchup : Matchup
  pick : Pick
  signal : SignalStats
  whalePositions : List WhalePositionUI
  checklist : Checklist
  polymarketUrl : List Char
  firstSeenAt : List Char
  lastSeenAt : List Char

/-- Function `transformApiSignal` (signal.ts lines 52-166). -/
def transformApiSignal (a : ApiSignal) : Signal :=
  let eventTitle := jsStrOr a.event_title []
  let teams := parseTeams eventTitle
  let betType :=
    if jsTruthy a.bet_type then mapApiBetType (a.bet_type.getD [])
    else inferBetType a.outcome a.market_title
  let entryPrice := jsNumOr a.avg_entry 0
  let currentPrice := a.current_price.getD entryPrice
  let rrRatio :=
    if 0 < currentPrice ∧ currentPrice < 1 then (1 - currentPrice) / currentPrice else 0
  { id := a.id
    sport := a.sport
    betType := betType
    matchup := { away := teams.1, home := teams.2, gameTime := a.event_date }
    pick := { side := a.outcome, entryPrice := entryPrice, currentPrice := currentPrice }
    signal :=
      { consensusPercent := a.consensus_pct
        whaleCount := a.traders
        totalVolume := a.total_volume
        weightedScore := a.signal_score
        signalScore := a.signal_score
        tier := if a.tier = 1 ∨ a.tier = 2 then some a.tier else none
        rrRatio := rrRatio }
    whalePositions := []
    checklist :=
      { consensusPass := decide (80 ≤ a.consensus_pct)
        traderCountPass := decide (3 ≤ a.traders)
        priceCeilingPass := decide (entryPrice ≤ 0.55)
        rrRatioPass := decide (1 ≤ rrRatio)
        noHedging := true
        noEliteConflict := true }
    polymarketUrl := a.polymarket_url
    firstSeenAt := a.first_seen_at
    lastSeenAt := a.last_seen_at }

/-- A signal is "passing" exactly when every checklist gate is true (spec §3, §8). -/
def allPass (c : Checklist) : Bool :=
  c.consensusPass && c.traderCountPass && c.priceCeilingPass &&
    c.rrRatioPass && c.noHedging && c.noEliteConflict

/-- Whale position as read by the grouping and consensus code, restricted to
the two fields that code inspects (`outcome`, `current_value`). -/
structure ApiWhalePosition where
  outcome : List Char
  current_value : ℚ
deriving DecidableEq, Repr

/-- One step of the grouping reduce of SignalDetailSheet.tsx lines 214-221:
push `p` onto the group keyed by `p.outcome`, creating the group (at the end,
matching JS object key insertion order) when absent. -/
def pushOutcome (p : ApiWhalePosition) :
    List (List Char × List ApiWhalePosition) → List (List Char × List ApiWhalePosition)
  | [] => [(p.outcome, [p])]
  | (k, g) :: rest =>
    if k = p.outcome then (k, g ++ [p]) :: rest
    else (k, g) :: pushOutcome p rest

/-- Grouping `positionsByOutcome`: the JS reduce, modelled as an insertion-ordered
association list from outcome string to its positions. -/
def positionsByOutcome (ps : List ApiWhalePosition) :
    List (List Char × List ApiWhalePosition) :=
  ps.foldl (fun acc p => pushOutcome p acc) []

/-- Indexing `positionsByOutcome[k]`: `none` models JS `undefined`. -/
def lookupGroup : List (List Char × List ApiWhalePosition) → List Char →
    Option (List ApiWhalePosition)
  | [], _ => none
  | (k', g) :: rest, k => if k' = k then some g else lookupGroup rest k

/-- Volume sum `positions.reduce((sum, p) => sum + p.current_value, 0)`. -/
def volumeOf (ps : List ApiWhalePosition) : ℚ :=
  ps.foldl (fun s p => s + p.current_value) 0

/-- JS `Math.round`: round half toward positive infinity. -/
def jsRound (q : ℚ) : ℤ := ⌊q + 1 / 2⌋

/-- Total volume of an association of outcome groups: the sum of the
per-group volumes. -/
def groupVolumes (acc : List (List Char × List ApiWhalePosition)) : ℚ :=
  (acc.map (fun e => volumeOf e.2)).sum

/-- Derived `actualConsensus` (SignalDetailSheet.tsx lines 237-244): `none` models the
JS `null` fallback cases. -/
def actualConsensus (whalePositions : List ApiWhalePosition) (pickSide : List Char) :
    Option ℤ :=
  if whalePositions.length = 0 then none
  else
    let pickPositions := (lookupGroup (positionsByOutcome whalePositions) pickSide).getD []
    let pickVolume := volumeOf pickPositions
    let totalVolume := volumeOf whalePositions
    if totalVolume = 0 then none
    else some (jsRound (pickVolume / totalVolume * 100))

/-- Displayed consensus `displayConsensus = actualConsensus ?? signal.signal.consensusPercent`
(SignalDetailSheet.tsx line 246). -/
def displayConsensus (whalePositions : List ApiWhalePosition) (pickSide : List Char)
    (stored : ℚ) : ℚ :=
  match actualConsensus whalePositions pickSide with
  | some c => (c : ℚ)
  | none => stored

/-- Code-point lexicographic string order; models `a.localeCompare(b) <= 0`
(the locale-aware comparison, embedded as code-point comparison). -/
def localeLe : List Char → List Char → Bool
  | [], _ => true
  | _ :: _, [] => false
  | a :: as, b :: bs => if a = b then localeLe as bs else decide (a < b)

/-- The outcome sort comparator of SignalDetailSheet.tsx lines 224-228 as an
ordering relation: the pick side precedes everything, the rest is ordered by
`localeLe`. -/
def outcomeRel (pickSide : List Char) (a b : List Char) : Prop :=
  a = pickSide ∨ (b ≠ pickSide ∧ localeLe a b = true)

instance (pickSide a b : List Char) : Decidable (outcomeRel pickSide a b) := by
  unfold outcomeRel; infer_instance

/-- The displayed, ordered list of outcome keys (`outcomes` in the source):
group keys sorted with the pick-side-first comparator. The JS `Array.sort` is
modelled by insertion sort, which produces a sorted permutation. -/
def orderedOutcomes (ps : List ApiWhalePosition) (pickSide : List Char) :
    List (List Char) :=
  List.insertionSort (outcomeRel pickSide) ((positionsByOutcome ps).map Prod.fst)

/-- The filter-relevant state of `WhalePlaysPage` (part_000 lines 26-36):
six committed filters, the two pending text inputs, and the page number. -/
structure WhalePlaysState where
  sportFilter : List Char
  betTypeFilter : List Char
  statusFilter : List Char
  gameDate : List Char
  minVolumeInput : List Char
  minWhalesInput : List Char
  minVolume : List Char
  minWhales : List Char
  page : ℤ
deriving DecidableEq, Repr

/-- The six state setters that the page routes through `handleFilterChange`. -/
inductive FilterSetter where
  | setSport
  | setBetType
  | setStatus
  | setGameDate
  | setMinVolume
  | setMinWhales
deriving DecidableEq, Repr

/-- Apply one of the `useState` setters to the page state. -/
def applySetter (s : FilterSetter) (v : List Char) (st : WhalePlaysState) :
    WhalePlaysState :=
  match s with
  | .setSport => { st with sportFilter := v }
  | .setBetType => { st with betTypeFilter := v }
  | .setStatus => { st with statusFilter := v }
  | .setGameDate => { st with gameDate := v }
  | .setMinVolume => { st with minVolume := v }
  | .setMinWhales => { st with minWhales := v }

/-- Handler `handleFilterChange` (part_000 lines 62-65): run the setter, then `setPage(1)`. -/
def handleFilterChange (s : FilterSetter) (v : List Char) (st : WhalePlaysState) :
    WhalePlaysState :=
  { applySetter s v st with page := 1 }

/-- Handler `handlePageChange` (part_000 lines 56-59): `setPage(newPage)`; the scroll
call has no state effect. -/
def handlePageChange (newPage : ℤ) (st : WhalePlaysState) : WhalePlaysState :=
  { st with page := newPage }

/-- The two durable localStorage slots holding the tokens. -/
structure TokenStorage where
  access : Option (List Char)
  refresh : Option (List Char)
deriving DecidableEq, Repr

/-- A token pair returned by the auth endpoints (the two fields stored). -/
structure TokenPair where
  access_token : List Char
  refresh_token : List Char
deriving DecidableEq, Repr

/-- Storage write `setTokens`: store both tokens. -/
def setTokens (t : TokenPair) (_st : TokenStorage) : TokenStorage :=
  { access := some t.access_token, refresh := some t.refresh_token }

/-- Storage write `clearTokens`: remove both tokens. -/
def clearTokens (_st : TokenStorage) : TokenStorage :=
  { access := none, refresh := none }

/-- Outcome of one network call, supplied to the model as an oracle. -/
inductive NetResult (α : Type) where
  | ok (value : α)
  | err (message : List Char)
deriving DecidableEq, Repr

/-- Function `logout` of the auth api (part_005 lines 311-319): try the endpoint,
`catch` swallows any error, `finally` clears the tokens. The boolean reports
whether an exception escaped to the caller (it never does). -/
def logout (st : TokenStorage) (serverOutcome : NetResult Unit) : TokenStorage × Bool :=
  let escaped :=
    match serverOutcome with
    | .ok _ => false
    | .err _ => false
  (clearTokens st, escaped)

/-- Session state of `AuthContext`; `user = none` is unauthenticated. The
`User` object is reduced to its display string (no claim inspects it). -/
structure AuthState where
  storage : TokenStorage
  user : Option (List Char)
  isLoading : Bool
deriving DecidableEq, Repr

/-- Function `logout` of AuthContext.tsx lines 114-122: set the loading flag, call the
api logout (which clears tokens and never throws), and in the `finally` reset
the user and the loading flag. -/
def contextLogout (s : AuthState) (serverOutcome : NetResult Unit) : AuthState :=
  let s1 := { s with isLoading := true }
  let st2 := (logout s1.storage serverOutcome).1
  { s1 with storage := st2, user := none, isLoading := false }

/-- Function `refreshAccessToken` (part_005 lines 324-343). Result: the new storage,
the value returned to the caller, and whether a network request was issued. -/
def refreshAccessToken (st : TokenStorage) (serverOutcome : NetResult TokenPair) :
    TokenStorage × Option TokenPair × Bool :=
  if jsTruthy st.refresh = false then (st, none, false)
  else
    match serverOutcome with
    | .ok tokens => (setTokens tokens st, some tokens, true)
    | .err _ => (clearTokens st, none, true)

/-- Read the filter field targeted by a given setter. -/
def readFilter (s : FilterSetter) (st : WhalePlaysState) : List Char :=
  match s with
  | .setSport => st.sportFilter
  | .setBetType => st.betTypeFilter
  | .setStatus => st.statusFilter
  | .setGameDate => st.gameDate
  | .setMinVolume => st.minVolume
  | .setMinWhales => st.minWhales

/-- The raw signal of the end-to-end scenario of spec §8: `consensus_pct=72`,
`traders=4`, `avg_entry=0.40`, `current_price=null`, `tier=1`. -/
def sampleApi : ApiSignal :=
  { id := 1
    sport := "NBA".toList
    outcome := "Over 220.5".toList
    event_title := "Lakers @ Warriors".toList
    market_title := "Total Points".toList
    event_date := none
    avg_entry := 0.40
    current_price := none
    consensus_pct := 72
    traders := 4
    total_volume := 1000
    signal_score := 3
    tier := 1
    polymarket_url := []
    first_seen_at := []
    last_seen_at := []
    bet_type := none }

/-- Variant of `sampleApi` with a live current price (used to exercise the non-null branch). -/
def sampleApiLive : ApiSignal := { sampleApi with current_price := some 0.7 }

/-- The whale positions of the live-consensus scenario of spec §8. -/
def samplePos : List ApiWhalePosition :=
  [{ outcome := "Over".toList, current_value := 300 },
   { outcome := "Under".toList, current_value := 100 }]

/-- A concrete whale-plays page state used to exercise the filter transitions. -/
def sampleFilters : WhalePlaysState :=
  { sportFilter := "All".toList
    betTypeFilter := "All".toList
    statusFilter := "open".toList
    gameDate := []
    minVolumeInput := "50".toList
    minWhalesInput := []
    minVolume := []
    minWhales := []
    page := 3 }

/-- A concrete token storage with both tokens present. -/
def sampleStorage : TokenStorage :=
  { access := some "acc".toList, refresh := some "ref".toList }

/-- A concrete token storage with an access token but no refresh token. -/
def sampleStorageNoRefresh : TokenStorage :=
  { access := some "acc".toList, refresh := none }

/-- A concrete fresh token pair. -/
def sampleTokens : TokenPair :=
  { access_token := "newAcc".toList, refresh_token := "newRef".toList }

/-!  Helper lemmas: definitional projections of the transformer. -/

theorem transform_entryPrice (a : ApiSignal) :
    (transformApiSignal a).pick.entryPrice = jsNumOr a.avg_entry 0 := rfl

theorem transform_currentPrice (a : ApiSignal) :
    (transformApiSignal a).pick.currentPrice =
      a.current_price.getD (jsNumOr a.avg_entry 0) := rfl

theorem transform_rrRatio (a : ApiSignal) :
    (transformApiSignal a).signal.rrRatio =
      if 0 < (transformApiSignal a).pick.currentPrice ∧
          (transformApiSignal a).pick.currentPrice < 1 then
        (1 - (transformApiSignal a).pick.currentPrice) /
          (transformApiSignal a).pick.currentPrice
      else 0 := rfl

theorem transform_checklist (a : ApiSignal) :
    (transformApiSignal a).checklist =
      { consensusPass := decide (80 ≤ a.consensus_pct)
        traderCountPass := decide (3 ≤ a.traders)
        priceCeilingPass := decide ((transformApiSignal a).pick.entryPrice ≤ 0.55)
        rrRatioPass := decide (1 ≤ (transformApiSignal a).signal.rrRatio)
        noHedging := true
        noEliteConflict := true } := rfl

theorem transform_betType (a : ApiSignal) :
    (transformApiSignal a).betType =
      if jsTruthy a.bet_type then mapApiBetType (a.bet_type.getD [])
      else inferBetType a.outcome a.market_title := rfl

/-- C1: for every transformed signal, when `0 < currentPrice < 1` the risk/
reward ratio is `(1 - currentPrice) / currentPrice`; when `currentPrice ≤ 0`
or `currentPrice ≥ 1` it is `0`; and it is nonnegative in every case. -/
theorem c1_rr_ratio_formula (a : ApiSignal) :
    (0 < (transformApiSignal a).pick.currentPrice ∧
        (transformApiSignal a).pick.currentPrice < 1 →
      (transformApiSignal a).signal.rrRatio =
        (1 - (transformApiSignal a).pick.currentPrice) /
          (transformApiSignal a).pick.currentPrice)
    ∧ ((transformApiSignal a).pick.currentPrice ≤ 0 ∨
        1 ≤ (transformApiSignal a).pick.currentPrice →
      (transformApiSignal a).signal.rrRatio = 0)
    ∧ 0 ≤ (transformApiSignal a).signal.rrRatio := by
  refine ⟨?_, ?_, ?_⟩
  · intro h
    rw [transform_rrRatio, if_pos h]
  · intro h
    rw [transform_rrRatio, if_neg]
    rintro ⟨h1, h2⟩
    rcases h with h | h
    · linarith
    · linarith
  · rw [transform_rrRatio]
    split
    · rename_i h
      exact div_nonneg (by linarith [h.2]) (le_of_lt h.1)
    · exact le_refl 0

/-- C1 witness: both conditional branches exercised at concrete inputs via
the theorem (`sampleApi` has `currentPrice = 0.4`, `sampleApiLive` a price
of `0.7`, and setting `current_price` to `some 2` exercises the zero branch). -/
theorem c1_rr_ratio_formula_witness :
    (transformApiSignal sampleApi).signal.rrRatio =
      (1 - (transformApiSignal sampleApi).pick.currentPrice) /
        (transformApiSignal sampleApi).pick.currentPrice
    ∧ (transformApiSignal { sampleApi with current_price := some 2 }).signal.rrRatio = 0
    ∧ 0 ≤ (transformApiSignal sampleApiLive).signal.rrRatio := by
  refine ⟨?_, ?_, ?_⟩
  · exact (c1_rr_ratio_formula sampleApi).1
      (by constructor <;> (rw [transform_currentPrice]; with_unfolding_all decide))
  · exact (c1_rr_ratio_formula _).2.1
      (Or.inr (by rw [transform_currentPrice]; with_unfolding_all decide))
  · exact (c1_rr_ratio_formula sampleApiLive).2.2

/-- C2: the six checklist gates are derived independently from the stated
thresholds (consensus ≥ 80, traders ≥ 3, entry ≤ 0.55, risk/reward ≥ 1, and
the two always-true flags); a checklist is all-pass exactly when every gate
is true; and the spec §8 end-to-end scenario produces `currentPrice = 0.40`,
`rrRatio = 1.5` and checklist `(false, true, true, true, true, true)`. -/
theorem c2_checklist_derivation :
    (∀ a : ApiSignal,
      ((transformApiSignal a).checklist.consensusPass = true ↔ 80 ≤ a.consensus_pct)
      ∧ ((transformApiSignal a).checklist.traderCountPass = true ↔ 3 ≤ a.traders)
      ∧ ((transformApiSignal a).checklist.priceCeilingPass = true ↔
          (transformApiSignal a).pick.entryPrice ≤ 0.55)
      ∧ ((transformApiSignal a).checklist.rrRatioPass = true ↔
          1 ≤ (transformApiSignal a).signal.rrRatio)
      ∧ (transformApiSignal a).checklist.noHedging = true
      ∧ (transformApiSignal a).checklist.noEliteConflict = true)
    ∧ (∀ c : Checklist,
        allPass c = true ↔
          c.consensusPass = true ∧ c.traderCountPass = true ∧ c.priceCeilingPass = true
          ∧ c.rrRatioPass = true ∧ c.noHedging = true ∧ c.noEliteConflict = true)
    ∧ ((transformApiSignal sampleApi).pick.currentPrice = 0.40
      ∧ (transformApiSignal sampleApi).signal.rrRatio = 1.5
      ∧ (transformApiSignal sampleApi).checklist =
          { consensusPass := false, traderCountPass := true, priceCeilingPass := true,
            rrRatioPass := true, noHedging := true, noEliteConflict := true }) := by
  refine ⟨?_, ?_, ?_, ?_, ?_⟩
  · intro a
    rw [transform_checklist]
    simp only [decide_eq_true_eq, and_self, and_true]
  · intro c
    simp [allPass, Bool.and_eq_true, and_assoc]
  · rw [transform_currentPrice]
    with_unfolding_all decide
  · rw [transform_rrRatio, transform_currentPrice]
    with_unfolding_all decide
  · rw [transform_checklist]
    with_unfolding_all decide

/-- C6: `currentPrice` of the transformed pick falls back to the (transformed)
entry price when the backend price is `null`, and is the backend price when
it is present. -/
theorem c6_current_price_fallback (a : ApiSignal) :
    (a.current_price = none →
      (transformApiSignal a).pick.currentPrice = (transformApiSignal a).pick.entryPrice)
    ∧ (∀ p : ℚ, a.current_price = some p →
      (transformApiSignal a).pick.currentPrice = p) := by
  constructor
  · intro h
    rw [transform_currentPrice, transform_entryPrice, h]
    rfl
  · intro p h
    rw [transform_currentPrice, h]
    rfl

/-- C6 witness: the fallback at `sampleApi` (null price) and the passthrough
at `sampleApiLive` (price `0.7`), both via the theorem. -/
theorem c6_current_price_fallback_witness :
    (transformApiSignal sampleApi).pick.currentPrice =
      (transformApiSignal sampleApi).pick.entryPrice
    ∧ (transformApiSignal sampleApiLive).pick.currentPrice = 0.7 := by
  constructor
  · exact (c6_current_price_fallback sampleApi).1 rfl
  · exact (c6_current_price_fallback sampleApiLive).2 0.7 rfl

/-- C9: logout always succeeds locally: for every server outcome (success or
thrown error) the api-level `logout` clears both stored tokens and lets no
exception escape, and the context-level logout additionally resets the user
to unauthenticated. -/
theorem c9_logout_always_succeeds (st : TokenStorage) (s : AuthState)
    (serverOutcome : NetResult Unit) :
    (logout st serverOutcome).1.access = none
    ∧ (logout st serverOutcome).1.refresh = none
    ∧ (logout st serverOutcome).2 = false
    ∧ (contextLogout s serverOutcome).storage.access = none
    ∧ (contextLogout s serverOutcome).storage.refresh = none
    ∧ (contextLogout s serverOutcome).user = none := by
  cases serverOutcome <;>
    exact ⟨rfl, rfl, rfl, rfl, rfl, rfl⟩

/-- C10: with no stored refresh token, `refreshAccessToken` returns `null`
with no network request and the storage untouched (the access token stays);
whenever no request is issued the storage is unmodified; and only an
attempted-and-failed request clears both tokens before returning `null`. -/
theorem c10_refresh_token_guard (st : TokenStorage) (r : NetResult TokenPair)
    (e : List Char) (t : TokenPair) :
    (st.refresh = none → refreshAccessToken st r = (st, none, false))
    ∧ (st.refresh = none → (refreshAccessToken st r).1.access = st.access)
    ∧ ((refreshAccessToken st r).2.2 = false → (refreshAccessToken st r).1 = st)
    ∧ (jsTruthy st.refresh = true →
        refreshAccessToken st (.err e) = (clearTokens st, none, true))
    ∧ (jsTruthy st.refresh = true →
        refreshAccessToken st (.ok t) = (setTokens t st, some t, true)) := by
  refine ⟨?_, ?_, ?_, ?_, ?_⟩
  · intro h
    simp [refreshAccessToken, h, jsTruthy]
  · intro h
    simp [refreshAccessToken, h, jsTruthy]
  · intro h
    by_cases hf : jsTruthy st.refresh = false
    · simp [refreshAccessToken, hf]
    · exfalso
      simp only [Bool.not_eq_false] at hf
      cases r <;> simp [refreshAccessToken, hf] at h
  · intro h
    simp [refreshAccessToken, h]
  · intro h
    simp [refreshAccessToken, h]

/-- C10 witness: the no-refresh-token storage is returned untouched, and the
populated storage is cleared on a failed refresh and refilled on a successful
one, each via the theorem at concrete inputs. -/
theorem c10_refresh_token_guard_witness :
    refreshAccessToken sampleStorageNoRefresh (.err "boom".toList) =
      (sampleStorageNoRefresh, none, false)
    ∧ (refreshAccessToken sampleStorageNoRefresh (.err "boom".toList)).1.access =
        some "acc".toList
    ∧ refreshAccessToken sampleStorage (.err "boom".toList) =
        (clearTokens sampleStorage, none, true)
    ∧ refreshAccessToken sampleStorage (.ok sampleTokens) =
        (setTokens sampleTokens sampleStorage, some sampleTokens, true) := by
  refine ⟨?_, ?_, ?_, ?_⟩
  · exact (c10_refresh_token_guard sampleStorageNoRefresh (.err "boom".toList)
      "boom".toList sampleTokens).1 rfl
  · exact (c10_refresh_token_guard sampleStorageNoRefresh (.err "boom".toList)
      "boom".toList sampleTokens).2.1 rfl
  · exact (c10_refresh_token_guard sampleStorage (.err "boom".toList)
      "boom".toList sampleTokens).2.2.2.1 (by decide)
  · exact (c10_refresh_token_guard sampleStorage (.ok sampleTokens)
      "boom".toList sampleTokens).2.2.2.2 (by decide)

/-- C8: committing any filter through `handleFilterChange` resets the page to
1, writes exactly the targeted field, and leaves every other filter field
(including the two pending text inputs) unchanged; `handlePageChange` changes
the page and nothing else. -/
theorem c8_filter_change_resets_page (st : WhalePlaysState) (s : FilterSetter)
    (v : List Char) (p : ℤ) :
    (handleFilterChange s v st).page = 1
    ∧ readFilter s (handleFilterChange s v st) = v
    ∧ (∀ s' : FilterSetter, s' ≠ s →
        readFilter s' (handleFilterChange s v st) = readFilter s' st)
    ∧ (handleFilterChange s v st).minVolumeInput = st.minVolumeInput
    ∧ (handleFilterChange s v st).minWhalesInput = st.minWhalesInput
    ∧ handlePageChange p st = { st with page := p } := by
  refine ⟨?_, ?_, ?_, ?_, ?_, ?_⟩
  · cases s <;> rfl
  · cases s <;> rfl
  · intro s' hne
    cases s <;> cases s' <;> first | exact absurd rfl hne | rfl
  · cases s <;> rfl
  · cases s <;> rfl
  · rfl

/-- C8 witness: committing a sport change on the concrete page state resets
the page to 1 and leaves the status filter alone, while a bare page change
only moves the page — all via the theorem. -/
theorem c8_filter_change_resets_page_witness :
    (handleFilterChange .setSport ("NBA".toList) sampleFilters).page = 1
    ∧ readFilter .setStatus (handleFilterChange .setSport ("NBA".toList) sampleFilters) =
        readFilter .setStatus sampleFilters
    ∧ handlePageChange 7 sampleFilters = { sampleFilters with page := 7 } := by
  refine ⟨?_, ?_, ?_⟩
  · exact (c8_filter_change_resets_page sampleFilters .setSport ("NBA".toList) 7).1
  · exact (c8_filter_change_resets_page sampleFilters .setSport ("NBA".toList) 7).2.2.1
      .setStatus (by decide)
  · exact (c8_filter_change_resets_page sampleFilters .setSport ("NBA".toList) 7).2.2.2.2.2

/-- C4: bet-type precedence. An explicit (truthy) backend tag decides the bet
type by itself; otherwise the inference chain applies in order: outcome text
starting with "over"/"under" gives Totals, then a market title containing
"total" or "over/under" gives Totals, then a title containing "spread" or an
outcome matching the signed-number pattern gives Spread, else Moneyline. -/
theorem c4_bet_type_precedence (a : ApiSignal) (outcome mt : List Char) :
    (jsTruthy a.bet_type = true →
      (transformApiSignal a).betType = mapApiBetType (a.bet_type.getD []))
    ∧ (jsTruthy a.bet_type = false →
      (transformApiSignal a).betType = inferBetType a.outcome a.market_title)
    ∧ (("over".toList.isPrefixOf (toLowerStr (jsStrOr outcome [])) ||
          "under".toList.isPrefixOf (toLowerStr (jsStrOr outcome []))) = true →
      inferBetType outcome mt = .Totals)
    ∧ (("over".toList.isPrefixOf (toLowerStr (jsStrOr outcome [])) ||
          "under".toList.isPrefixOf (toLowerStr (jsStrOr outcome []))) = false →
      (jsIncludes (toLowerStr (jsStrOr mt [])) "total".toList ||
          jsIncludes (toLowerStr (jsStrOr mt [])) "over/under".toList) = true →
      inferBetType outcome mt = .Totals)
    ∧ (("over".toList.isPrefixOf (toLowerStr (jsStrOr outcome [])) ||
          "under".toList.isPrefixOf (toLowerStr (jsStrOr outcome []))) = false →
      (jsIncludes (toLowerStr (jsStrOr mt [])) "total".toList ||
          jsIncludes (toLowerStr (jsStrOr mt [])) "over/under".toList) = false →
      (jsIncludes (toLowerStr (jsStrOr mt [])) "spread".toList ||
          hasSignedNum (jsStrOr outcome [])) = true →
      inferBetType outcome mt = .Spread)
    ∧ (("over".toList.isPrefixOf (toLowerStr (jsStrOr outcome [])) ||
          "under".toList.isPrefixOf (toLowerStr (jsStrOr outcome []))) = false →
      (jsIncludes (toLowerStr (jsStrOr mt [])) "total".toList ||
          jsIncludes (toLowerStr (jsStrOr mt [])) "over/under".toList) = false →
      (jsIncludes (toLowerStr (jsStrOr mt [])) "spread".toList ||
          hasSignedNum (jsStrOr outcome [])) = false →
      inferBetType outcome mt = .Moneyline) := by
  refine ⟨?_, ?_, ?_, ?_, ?_, ?_⟩
  · intro h
    rw [transform_betType, if_pos h]
  · intro h
    rw [transform_betType, if_neg (by simp [h])]
  · intro h1
    simp only [inferBetType, h1, if_true]
  · intro h1 h2
    simp only [inferBetType, h1, h2]
    rfl
  · intro h1 h2 h3
    simp only [inferBetType, h1, h2, h3]
    rfl
  · intro h1 h2 h3
    simp only [inferBetType, h1, h2, h3]
    rfl

/-- C4 witness: all six conjuncts exercised at concrete inputs through the
theorem: an explicit "totals" tag, the tagless `sampleApi`, an "Over ..."
outcome, a "total"-bearing title, a signed-number spread outcome, and a
plain moneyline outcome. -/
theorem c4_bet_type_precedence_witness :
    (transformApiSignal { sampleApi with bet_type := some ("totals".toList) }).betType =
        mapApiBetType ("totals".toList)
    ∧ (transformApiSignal sampleApi).betType =
        inferBetType sampleApi.outcome sampleApi.market_title
    ∧ inferBetType ("Over 220.5".toList) ("Total Points".toList) = .Totals
    ∧ inferBetType ("Lakers".toList) ("Total Points".toList) = .Totals
    ∧ inferBetType ("Lakers +3.5".toList) ("Handicap".toList) = .Spread
    ∧ inferBetType ("Lakers".toList) ("Winner".toList) = .Moneyline := by
  refine ⟨?_, ?_, ?_, ?_, ?_, ?_⟩
  · exact (c4_bet_type_precedence { sampleApi with bet_type := some ("totals".toList) }
      [] []).1 (by decide)
  · exact (c4_bet_type_precedence sampleApi [] []).2.1 (by decide)
  · exact (c4_bet_type_precedence sampleApi ("Over 220.5".toList)
      ("Total Points".toList)).2.2.1 (by decide)
  · exact (c4_bet_type_precedence sampleApi ("Lakers".toList)
      ("Total Points".toList)).2.2.2.1 (by decide) (by decide)
  · exact (c4_bet_type_precedence sampleApi ("Lakers +3.5".toList)
      ("Handicap".toList)).2.2.2.2.1 (by decide) (by decide) (by decide)
  · exact (c4_bet_type_precedence sampleApi ("Lakers".toList)
      ("Winner".toList)).2.2.2.2.2 (by decide) (by decide) (by decide)

/-!  Lemmas about `splitFirst` and `jsSplit`. -/

theorem splitFirst_append (sep : List Char) :
    ∀ s pre post : List Char, splitFirst sep s = some (pre, post) →
      s = pre ++ (sep ++ post) := by
  intro s
  induction s with
  | nil =>
    intro pre post h
    simp [splitFirst] at h
  | cons c cs ih =>
    intro pre post h
    rw [splitFirst] at h
    by_cases hp : sep.isPrefixOf (c :: cs)
    · rw [if_pos hp] at h
      simp only [Option.some.injEq, Prod.mk.injEq] at h
      obtain ⟨h1, h2⟩ := h
      subst h1
      subst h2
      obtain ⟨t, ht⟩ := List.isPrefixOf_iff_prefix.mp hp
      simp only [List.nil_append]
      rw [← ht, List.drop_left]
    · rw [if_neg hp] at h
      cases hm : splitFirst sep cs with
      | none =>
        rw [hm] at h
        simp at h
      | some pr =>
        obtain ⟨pre', post'⟩ := pr
        rw [hm] at h
        simp only [Option.some.injEq, Prod.mk.injEq] at h
        obtain ⟨h1, h2⟩ := h
        subst h1
        subst h2
        simpa using congrArg (List.cons c) (ih pre' post' hm)

theorem jsSplitAux_ne_nil (sep : List Char) :
    ∀ (fuel : Nat) (s : List Char), jsSplitAux sep fuel s ≠ [] := by
  intro fuel
  cases fuel with
  | zero =>
    intro s
    simp [jsSplitAux]
  | succ n =>
    intro s
    rw [jsSplitAux]
    cases hm : splitFirst sep s with
    | none => simp
    | some pr => simp

theorem jsSplitAux_singleton (sep : List Char) :
    ∀ (fuel : Nat) (s x : List Char), jsSplitAux sep fuel s = [x] → x = s := by
  intro fuel
  induction fuel with
  | zero =>
    intro s x h
    simp only [jsSplitAux, List.cons.injEq, and_true] at h
    exact h.symm
  | succ n ihn =>
    intro s x h
    rw [jsSplitAux] at h
    cases hm : splitFirst sep s with
    | none =>
      rw [hm] at h
      simp only [List.cons.injEq, and_true] at h
      exact h.symm
    | some pr =>
      obtain ⟨pre, post⟩ := pr
      rw [hm] at h
      simp only [List.cons.injEq] at h
      exact absurd h.2 (jsSplitAux_ne_nil sep n post)

theorem jsSplit_pair (sep s a b : List Char) (h : jsSplit sep s = [a, b]) :
    splitFirst sep s = some (a, b) ∧ s = a ++ (sep ++ b) := by
  have key : ∀ (fuel : Nat) (u : List Char), jsSplitAux sep fuel u = [a, b] →
      splitFirst sep u = some (a, b) := by
    intro fuel
    cases fuel with
    | zero =>
      intro u hu
      simp [jsSplitAux] at hu
    | succ n =>
      intro u hu
      rw [jsSplitAux] at hu
      cases hm : splitFirst sep u with
      | none =>
        rw [hm] at hu
        simp at hu
      | some pr =>
        obtain ⟨pre, post⟩ := pr
        rw [hm] at hu
        simp only [List.cons.injEq] at hu
        obtain ⟨h1, h2⟩ := hu
        have hb := jsSplitAux_singleton sep n post b h2
        rw [h1, hb]
  have h1 := key s.length s h
  exact ⟨h1, splitFirst_append sep s a b h1⟩

/-- C5 counterexample: the title `"A @ B @ C"` contains the separator
`" @ "`, yet concatenating the parsed away team, the separator and the
parsed home team does not reproduce the title (the third segment is lost). -/
theorem c5_counterexample :
    jsIncludes ("A @ B @ C".toList) sepAt = true
    ∧ ¬ ((parseTeams ("A @ B @ C".toList)).1 ++ sepAt ++
          (parseTeams ("A @ B @ C".toList)).2 = "A @ B @ C".toList) := by
  decide

/-- C5 (amended): when the first applicable separator (tried in order
`" @ "`, `" vs. "`, `" vs "`) splits the title into exactly two non-empty
parts, away and home are those (non-empty) parts and
`away ++ separator ++ home` round-trips to the title; a non-empty title
containing none of the separators is placed whole into away with an empty
home. -/
theorem c5_parse_roundtrip (t a b : List Char) :
    (jsSplit sepAt t = [a, b] → a ≠ [] → b ≠ [] →
      parseTeams t = (a, b) ∧ a ++ sepAt ++ b = t)
    ∧ (jsIncludes t sepAt = false → jsSplit sepVsDot t = [a, b] → a ≠ [] → b ≠ [] →
      parseTeams t = (a, b) ∧ a ++ sepVsDot ++ b = t)
    ∧ (jsIncludes t sepAt = false → jsIncludes t sepVsDot = false →
        jsSplit sepVs t = [a, b] → a ≠ [] → b ≠ [] →
      parseTeams t = (a, b) ∧ a ++ sepVs ++ b = t)
    ∧ (t ≠ [] → jsIncludes t sepAt = false → jsIncludes t sepVsDot = false →
        jsIncludes t sepVs = false →
      parseTeams t = (t, [])) := by
  refine ⟨?_, ?_, ?_, ?_⟩
  · intro h ha hb
    obtain ⟨hsf, heq⟩ := jsSplit_pair sepAt t a b h
    have hinc : jsIncludes t sepAt = true := by
      rw [jsIncludes, hsf]
      rfl
    constructor
    · simp [parseTeams, hinc, h, jsStrOr, ha, hb]
    · rw [List.append_assoc]
      exact heq.symm
  · intro h0 h ha hb
    obtain ⟨hsf, heq⟩ := jsSplit_pair sepVsDot t a b h
    have hinc : jsIncludes t sepVsDot = true := by
      rw [jsIncludes, hsf]
      rfl
    constructor
    · simp [parseTeams, h0, hinc, h, jsStrOr, ha, hb]
    · rw [List.append_assoc]
      exact heq.symm
  · intro h0 h1 h ha hb
    obtain ⟨hsf, heq⟩ := jsSplit_pair sepVs t a b h
    have hinc : jsIncludes t sepVs = true := by
      rw [jsIncludes, hsf]
      rfl
    constructor
    · simp [parseTeams, h0, h1, hinc, h, jsStrOr, ha, hb]
    · rw [List.append_assoc]
      exact heq.symm
  · intro ht h0 h1 h2
    simp [parseTeams, h0, h1, h2, jsStrOr, ht]

/-- C5 witness: all four branches of the amended statement exercised at
concrete titles through the theorem. -/
theorem c5_parse_roundtrip_witness :
    (parseTeams ("Lakers @ Warriors".toList) = ("Lakers".toList, "Warriors".toList)
      ∧ "Lakers".toList ++ sepAt ++ "Warriors".toList = "Lakers @ Warriors".toList)
    ∧ (parseTeams ("Lakers vs. Warriors".toList) = ("Lakers".toList, "Warriors".toList)
      ∧ "Lakers".toList ++ sepVsDot ++ "Warriors".toList = "Lakers vs. Warriors".toList)
    ∧ (parseTeams ("Lakers vs Warriors".toList) = ("Lakers".toList, "Warriors".toList)
      ∧ "Lakers".toList ++ sepVs ++ "Warriors".toList = "Lakers vs Warriors".toList)
    ∧ parseTeams ("Solo Event".toList) = ("Solo Event".toList, []) := by
  refine ⟨?_, ?_, ?_, ?_⟩
  · exact (c5_parse_roundtrip ("Lakers @ Warriors".toList) ("Lakers".toList)
      ("Warriors".toList)).1 (by decide) (by decide) (by decide)
  · exact (c5_parse_roundtrip ("Lakers vs. Warriors".toList) ("Lakers".toList)
      ("Warriors".toList)).2.1 (by decide) (by decide) (by decide) (by decide)
  · exact (c5_parse_roundtrip ("Lakers vs Warriors".toList) ("Lakers".toList)
      ("Warriors".toList)).2.2.1 (by decide) (by decide) (by decide) (by decide) (by decide)
  · exact (c5_parse_roundtrip ("Solo Event".toList) [] []).2.2.2
      (by decide) (by decide) (by decide) (by decide)

/-!  Lemmas about the grouping fold. -/

theorem lookupGroup_push (p : ApiWhalePosition)
    (acc : List (List Char × List ApiWhalePosition)) (k : List Char) :
    lookupGroup (pushOutcome p acc) k =
      if p.outcome = k then some ((lookupGroup acc k).getD [] ++ [p])
      else lookupGroup acc k := by
  induction acc with
  | nil =>
    by_cases h : p.outcome = k
    · simp [pushOutcome, lookupGroup, h]
    · simp [pushOutcome, lookupGroup, h]
  | cons e rest ih =>
    obtain ⟨k', g⟩ := e
    simp only [pushOutcome]
    by_cases h1 : k' = p.outcome
    · rw [if_pos h1]
      by_cases h2 : k' = k
      · have hpk : p.outcome = k := h1.symm.trans h2
        simp [lookupGroup, h2, hpk]
      · have hpk : p.outcome ≠ k := fun hc => h2 (h1.trans hc)
        simp [lookupGroup, h2, hpk]
    · rw [if_neg h1]
      by_cases h2 : k' = k
      · have hpk : p.outcome ≠ k := fun hc => h1 (h2.trans hc.symm)
        simp [lookupGroup, h2, hpk]
      · simp [lookupGroup, h2, ih]

theorem lookupGroup_fold (k : List Char) :
    ∀ (ps : List ApiWhalePosition) (acc : List (List Char × List ApiWhalePosition)),
      (lookupGroup (ps.foldl (fun acc p => pushOutcome p acc) acc) k).getD [] =
        (lookupGroup acc k).getD [] ++ ps.filter (fun p => decide (p.outcome = k)) := by
  intro ps
  induction ps with
  | nil =>
    intro acc
    simp
  | cons p ps ih =>
    intro acc
    simp only [List.foldl_cons, List.filter_cons]
    rw [ih (pushOutcome p acc), lookupGroup_push]
    by_cases h : p.outcome = k
    · simp [h]
    · simp [h]

theorem positionsByOutcome_lookup (ps : List ApiWhalePosition) (k : List Char) :
    (lookupGroup (positionsByOutcome ps) k).getD [] =
      ps.filter (fun p => decide (p.outcome = k)) := by
  have h := lookupGroup_fold k ps []
  simpa [positionsByOutcome, lookupGroup] using h

theorem volumeOf_foldl (s : ℚ) (ps : List ApiWhalePosition) :
    ps.foldl (fun s p => s + p.current_value) s = s + volumeOf ps := by
  induction ps generalizing s with
  | nil => simp [volumeOf]
  | cons p ps ih =>
    simp only [volumeOf, List.foldl_cons]
    rw [ih, ih (0 + p.current_value)]
    ring

theorem volumeOf_cons (p : ApiWhalePosition) (ps : List ApiWhalePosition) :
    volumeOf (p :: ps) = p.current_value + volumeOf ps := by
  rw [volumeOf, List.foldl_cons, volumeOf_foldl]
  ring

theorem volumeOf_append (xs ys : List ApiWhalePosition) :
    volumeOf (xs ++ ys) = volumeOf xs + volumeOf ys := by
  rw [volumeOf, List.foldl_append, volumeOf_foldl]
  rfl

theorem groupVolumes_push (p : ApiWhalePosition)
    (acc : List (List Char × List ApiWhalePosition)) :
    groupVolumes (pushOutcome p acc) = groupVolumes acc + p.current_value := by
  induction acc with
  | nil =>
    simp [pushOutcome, groupVolumes, volumeOf_cons, volumeOf]
  | cons e rest ih =>
    obtain ⟨k, g⟩ := e
    simp only [pushOutcome]
    by_cases h : k = p.outcome
    · rw [if_pos h]
      simp only [groupVolumes, List.map_cons, List.sum_cons, volumeOf_append,
        volumeOf_cons, volumeOf]
      ring_nf
      simp [List.foldl_nil]
      ring
    · rw [if_neg h]
      simp only [groupVolumes, List.map_cons, List.sum_cons] at ih ⊢
      rw [ih]
      ring

theorem groupVolumes_fold :
    ∀ (ps : List ApiWhalePosition) (acc : List (List Char × List ApiWhalePosition)),
      groupVolumes (ps.foldl (fun acc p => pushOutcome p acc) acc) =
        groupVolumes acc + volumeOf ps := by
  intro ps
  induction ps with
  | nil =>
    intro acc
    simp [volumeOf]
  | cons p ps ih =>
    intro acc
    simp only [List.foldl_cons]
    rw [ih (pushOutcome p acc), groupVolumes_push, volumeOf_cons]
    ring

/-!  Lemmas about the outcome ordering. -/

theorem localeLe_total : ∀ a b : List Char, localeLe a b = true ∨ localeLe b a = true
  | [], _ => Or.inl rfl
  | _ :: _, [] => Or.inr rfl
  | a :: as, b :: bs => by
    by_cases hab : a = b
    · subst hab
      simp only [localeLe, if_pos rfl]
      exact localeLe_total as bs
    · rcases lt_or_gt_of_ne hab with h | h
      · left
        simp [localeLe, hab, h]
      · right
        simp [localeLe, Ne.symm hab, h]

theorem localeLe_trans (a : List Char) :
    ∀ b c : List Char, localeLe a b = true → localeLe b c = true →
      localeLe a c = true := by
  induction a with
  | nil =>
    intro b c _ _
    rfl
  | cons a as ih =>
    intro b c hab hbc
    cases b with
    | nil => simp [localeLe] at hab
    | cons b bs =>
      cases c with
      | nil => simp [localeLe] at hbc
      | cons c cs =>
        rw [localeLe] at hab hbc ⊢
        by_cases h1 : a = b
        · subst h1
          rw [if_pos rfl] at hab
          by_cases h2 : a = c
          · rw [if_pos h2] at hbc ⊢
            exact ih bs cs hab hbc
          · rw [if_neg h2] at hbc ⊢
            exact hbc
        · rw [if_neg h1] at hab
          have hlt1 : a < b := of_decide_eq_true hab
          by_cases h2 : b = c
          · subst h2
            rw [if_neg h1]
            exact hab
          · rw [if_neg h2] at hbc
            have hlt2 : b < c := of_decide_eq_true hbc
            have hlt : a < c := lt_trans hlt1 hlt2
            rw [if_neg (ne_of_lt hlt)]
            exact decide_eq_true hlt

instance (pickSide : List Char) : IsTotal (List Char) (outcomeRel pickSide) where
  total a b := by
    by_cases ha : a = pickSide
    · exact Or.inl (Or.inl ha)
    · by_cases hb : b = pickSide
      · exact Or.inr (Or.inl hb)
      · rcases localeLe_total a b with h | h
        · exact Or.inl (Or.inr ⟨hb, h⟩)
        · exact Or.inr (Or.inr ⟨ha, h⟩)

instance (pickSide : List Char) : IsTrans (List Char) (outcomeRel pickSide) where
  trans a b c hab hbc := by
    rcases hab with ha | ⟨hb, hab⟩
    · exact Or.inl ha
    · rcases hbc with hb' | ⟨hc, hbc⟩
      · exact absurd hb' hb
      · exact Or.inr ⟨hc, localeLe_trans a b c hab hbc⟩

theorem sorted_head_pick (pickSide : List Char) (l : List (List Char))
    (hs : List.Sorted (outcomeRel pickSide) l) (hm : pickSide ∈ l) :
    l.head? = some pickSide := by
  cases l with
  | nil => cases hm
  | cons h t =>
    by_cases hh : h = pickSide
    · rw [hh]
      rfl
    · have hmt : pickSide ∈ t := by
        rcases List.mem_cons.mp hm with h1 | h1
        · exact absurd h1.symm hh
        · exact h1
      have hrel := (List.sorted_cons.mp hs).1 pickSide hmt
      rcases hrel with h1 | h1
      · exact absurd h1 hh
      · exact absurd rfl h1.1

theorem pairwise_localeLe_of_ne (pickSide : List Char) :
    ∀ l : List (List Char), (∀ x ∈ l, x ≠ pickSide) →
      l.Pairwise (outcomeRel pickSide) →
      l.Pairwise (fun a b => localeLe a b = true) := by
  intro l
  induction l with
  | nil =>
    intro _ _
    exact List.Pairwise.nil
  | cons a t ih =>
    intro hne hp
    rw [List.pairwise_cons] at hp ⊢
    refine ⟨?_, ih (fun x hx => hne x (List.mem_cons_of_mem a hx)) hp.2⟩
    intro b hb
    rcases hp.1 b hb with h | h
    · exact absurd h (hne a (List.mem_cons_self a t))
    · exact h.2

/-- C3: when the fetched whale-position list is non-empty and its total
volume is non-zero, the displayed consensus is
`round(pickSideVolume / totalVolume * 100)` with the pick-side volume taken
over the positions whose outcome equals the pick side; otherwise the stored
percent is displayed; and on the spec §8 positions the derived value is 75
whatever stale stored value the signal carried. -/
theorem c3_live_consensus (ps : List ApiWhalePosition) (pickSide : List Char)
    (stored : ℚ) :
    (ps ≠ [] → volumeOf ps ≠ 0 →
      displayConsensus ps pickSide stored =
        ((jsRound (volumeOf (ps.filter (fun p => decide (p.outcome = pickSide))) /
            volumeOf ps * 100) : ℤ) : ℚ))
    ∧ (ps = [] ∨ volumeOf ps = 0 → displayConsensus ps pickSide stored = stored)
    ∧ (∀ q : ℚ, displayConsensus samplePos ("Over".toList) q = 75) := by
  refine ⟨?_, ?_, ?_⟩
  · intro hne hv
    simp only [displayConsensus, actualConsensus]
    rw [if_neg (fun hc => hne (List.length_eq_zero.mp hc)), positionsByOutcome_lookup,
      if_neg hv]
  · intro h
    rcases h with h | h
    · subst h
      rfl
    · simp only [displayConsensus, actualConsensus]
      by_cases hn : ps.length = 0
      · rw [if_pos hn]
      · rw [if_neg hn, if_pos h]
  · intro q
    have h75 : actualConsensus samplePos ("Over".toList) = some 75 := by
      with_unfolding_all decide
    unfold displayConsensus
    rw [h75]
    norm_num

/-- C3 witness: the formula branch at the spec §8 positions (with a stale
stored value of 42) and the fallback branch at the empty list, both via the
theorem. -/
theorem c3_live_consensus_witness :
    samplePos ≠ []
    ∧ volumeOf samplePos ≠ 0
    ∧ displayConsensus samplePos ("Over".toList) 42 =
        ((jsRound (volumeOf (samplePos.filter
            (fun p => decide (p.outcome = "Over".toList))) /
          volumeOf samplePos * 100) : ℤ) : ℚ)
    ∧ displayConsensus [] ("Over".toList) 42 = 42 := by
  refine ⟨by decide, by with_unfolding_all decide, ?_, ?_⟩
  · exact (c3_live_consensus samplePos ("Over".toList) 42).1
      (by decide) (by with_unfolding_all decide)
  · exact (c3_live_consensus [] ("Over".toList) 42).2.1 (Or.inl rfl)

/-- C7: grouping by exact outcome partitions the volume (the per-group
volumes sum to the total volume of the input list), and the displayed
outcome order is a permutation of the group keys in which the pick side
comes first whenever present and the non-pick outcomes are pairwise in
alphabetical (`localeLe`) order. -/
theorem c7_grouping_partition (ps : List ApiWhalePosition) (pickSide : List Char) :
    groupVolumes (positionsByOutcome ps) = volumeOf ps
    ∧ (orderedOutcomes ps pickSide).Perm ((positionsByOutcome ps).map Prod.fst)
    ∧ (pickSide ∈ (positionsByOutcome ps).map Prod.fst →
        (orderedOutcomes ps pickSide).head? = some pickSide)
    ∧ ((orderedOutcomes ps pickSide).filter (fun o => decide (o ≠ pickSide))).Pairwise
        (fun a b => localeLe a b = true) := by
  have hsorted : List.Sorted (outcomeRel pickSide) (orderedOutcomes ps pickSide) :=
    List.sorted_insertionSort _ _
  refine ⟨?_, List.perm_insertionSort _ _, ?_, ?_⟩
  · have h := groupVolumes_fold ps []
    simpa [positionsByOutcome, groupVolumes] using h
  · intro hm
    have hmem : pickSide ∈ orderedOutcomes ps pickSide := by
      rw [orderedOutcomes, List.mem_insertionSort]
      exact hm
    exact sorted_head_pick pickSide _ hsorted hmem
  · refine pairwise_localeLe_of_ne pickSide _ ?_ (List.Pairwise.filter _ hsorted)
    intro x hx
    exact of_decide_eq_true (List.mem_filter.mp hx).2

/-- C7 witness: on the spec §8 positions with pick side "Under", the pick
side is present among the group keys and heads the ordered outcome list,
via the theorem. -/
theorem c7_grouping_partition_witness :
    "Under".toList ∈ (positionsByOutcome samplePos).map Prod.fst
    ∧ (orderedOutcomes samplePos ("Under".toList)).head? = some ("Under".toList) := by
  refine ⟨by decide, ?_⟩
  exact (c7_grouping_partition samplePos ("Under".toList)).2.2.1 (by decide)

end PolyUI
